import Mathlib

/-!
Shallow embedding of the matrix-storage abstraction in
`src/linalg/src/frame/mmm/storage.rs`.

Modelling conventions:
- Raw pointers are modelled as idealized byte addresses of type `Int`.
  Rust's `ptr.offset(n)` has undefined behavior unless the result stays
  in bounds, so on every defined execution the address arithmetic is the
  exact integer arithmetic used here (no wrap-around can occur).
- `usize`/`isize` quantities appearing as counts, lengths or strides are
  `Nat`/`Int`; the in-bounds caller precondition of this layer rules out
  the overflowing cases.
- Fallible operations (`unimplemented!()` / `panic!()` branches, and the
  `unwrap` on the column-pointer table) are modelled with `Option`:
  `none` is the aborted execution, which returns no descriptor.
- A pointer into the middle of a `Vec` (`as_ptr().offset(k)`) is
  modelled as the suffix of the corresponding list from index `k`.
- Destination memory is modelled at element granularity as a function
  from byte address to stored value; `set_from_tile` threads it
  explicitly and returns the updated memory.
-/

namespace Tract

/-- `MatrixStoreSpec` from storage.rs: the layout specification for one
matrix operand. -/
inductive MatrixStoreSpec where
  | View (axes : Option (Nat × Nat))
  | Packed (panel_len : Nat)
  | Strides (row_byte_stride col_byte_stride : Int)
  | OffsetsAndPtrs (row_byte_offsets col_byte_offsets : List Int) (nr : Nat)
  | VecStride (byte_stride : Int) (mr nr : Nat)
  deriving DecidableEq, Repr

/-- The data this layer reads from a `TensorView`: base address, element
size in bytes (`datum_type().size_of()`), and per-axis strides in
elements (`tensor.strides()`).  `tensor.rank()` is the number of axes,
one stride per axis. -/
structure TensorView where
  base : Int
  item_size : Nat
  strides : List Int
  deriving DecidableEq, Repr

/-- `tensor.rank()`: one stride per axis. -/
def TensorView.rank (t : TensorView) : Nat := t.strides.length

/-- `PanelStore` from storage.rs: the descriptor handed to the
micro-kernel.  Pointer fields hold byte addresses; the two table
pointers of `OffsetsAndPtrs` hold the pointed-to table contents (the
`col_ptrs` field is the suffix of the bound view's precomputed table
that the advanced pointer designates). -/
inductive PanelStore where
  | Strides (ptr row_byte_stride col_byte_stride : Int) (item_size : Nat)
  | Packed (ptr : Int)
  | OffsetsAndPtrs (row_byte_offsets : List Int) (col_ptrs : List Int)
  | VecStride (ptr byte_stride : Int) (item_size : Nat)
  deriving DecidableEq, Repr

/-- `MatrixStore` from storage.rs: a layout spec bound to a tensor view,
plus the optional precomputed column-pointer table. -/
structure MatrixStore where
  spec : MatrixStoreSpec
  tensor : TensorView
  col_ptrs : Option (List Int)
  deriving DecidableEq, Repr

/-- `MatrixStore::new`: bind a spec to a tensor; for `OffsetsAndPtrs`
resolve every column byte offset against the base address once. -/
def MatrixStore.new (spec : MatrixStoreSpec) (tensor : TensorView) : MatrixStore :=
  match spec with
  | .OffsetsAndPtrs _ col_byte_offsets _ =>
      { spec := spec, tensor := tensor,
        col_ptrs := some (col_byte_offsets.map (fun i => tensor.base + i)) }
  | _ => { spec := spec, tensor := tensor, col_ptrs := none }

/-- `MatrixStore::panel_a`: operand-A panel `i`; only `Packed` is
implemented, every other spec hits `unimplemented!()`. -/
def MatrixStore.panel_a (s : MatrixStore) (i : Nat) : Option PanelStore :=
  match s.spec with
  | .Packed panel_len =>
      some (.Packed (s.tensor.base + ((panel_len * i * s.tensor.item_size : Nat) : Int)))
  | _ => none

/-- `MatrixStore::panel_b`: operand-B panel `i` of `n`.  In the
`OffsetsAndPtrs` arm the Rust pattern binds `nr` from the spec,
shadowing the `nr` argument; the model names it `snr`. -/
def MatrixStore.panel_b (s : MatrixStore) (nr i n : Nat) : Option PanelStore :=
  match s.spec with
  | .Packed panel_len =>
      if nr * i + 1 = n then
        some (.VecStride (s.tensor.base + ((panel_len * i * s.tensor.item_size : Nat) : Int))
          ((nr * s.tensor.item_size : Nat) : Int) s.tensor.item_size)
      else
        some (.Packed (s.tensor.base + ((panel_len * i * s.tensor.item_size : Nat) : Int)))
  | .OffsetsAndPtrs row_byte_offsets _ snr =>
      match s.col_ptrs with
      | some cp => some (.OffsetsAndPtrs row_byte_offsets (cp.drop (snr * i)))
      | none => none
  | .VecStride byte_stride _ _ =>
      some (.VecStride s.tensor.base byte_stride s.tensor.item_size)
  | _ => none

/-- `MatrixStore::strides`: effective (row, column) byte strides.
`Packed` and `OffsetsAndPtrs` hit `panic!()`.  The source's
`get_unchecked(axis)` (undefined behavior out of bounds) is modelled
with `List.getD`, which agrees with it on every in-bounds access. -/
def MatrixStore.strides (s : MatrixStore) : Option (Int × Int) :=
  match s.spec with
  | .View axes =>
      let p :=
        match axes with
        | some a => a
        | none => (s.tensor.rank - 2, s.tensor.rank - 1)
      let row_byte_stride := s.tensor.strides.getD p.1 0 * (s.tensor.item_size : Int)
      let col_byte_stride := s.tensor.strides.getD p.2 0 * (s.tensor.item_size : Int)
      some (row_byte_stride, col_byte_stride)
  | .Strides row_byte_stride col_byte_stride => some (row_byte_stride, col_byte_stride)
  | .VecStride byte_stride _ _ => some (byte_stride, 0)
  | _ => none

/-- `MatrixStore::tile_c`: destination descriptor for the output
micro-tile at macro-position `(down, right)`. -/
def MatrixStore.tile_c (s : MatrixStore) (down right mr nr : Nat) : Option PanelStore :=
  match s.spec with
  | .Strides _ _ | .View _ =>
      match s.strides with
      | some (row_byte_stride, col_byte_stride) =>
          some (.Strides
            (s.tensor.base + row_byte_stride * (down : Int) * (mr : Int)
              + col_byte_stride * (right : Int) * (nr : Int))
            row_byte_stride col_byte_stride s.tensor.item_size)
      | none => none
  | .VecStride _ _ _ =>
      match s.strides with
      | some (row_byte_stride, _) =>
          some (.VecStride (s.tensor.base + row_byte_stride * (down : Int) * (mr : Int))
            row_byte_stride s.tensor.item_size)
      | none => none
  | _ => none

/-- One store of value `v` at byte address `addr` in element-granular
memory. -/
def storeAt (mem : Int → Int) (addr : Int) (v : Int) : Int → Int :=
  fun a => if a = addr then v else mem a

/-- `MatrixStore::set_from_tile`: copy an `height × width` micro-tile
from the temporary buffer `tile` (element `(y, x)` lives at buffer
index `y + x * mr`) into destination memory.  The source calls
`strides()` before dispatching on the spec, so `Packed` and
`OffsetsAndPtrs` abort there. -/
def MatrixStore.set_from_tile (s : MatrixStore) (down right height width : Nat)
    (tile : Nat → Int) (mr nr : Nat) (mem : Int → Int) : Option (Int → Int) :=
  match s.strides with
  | none => none
  | some (row_byte_stride, col_byte_stride) =>
      let dst0 : Int := s.tensor.base + row_byte_stride * ((down * mr : Nat) : Int)
        + col_byte_stride * ((right * nr : Nat) : Int)
      match s.spec with
      | .Strides _ _ | .View _ =>
          some ((List.range height).foldl (fun m (y : Nat) =>
            (List.range width).foldl (fun m2 (x : Nat) =>
              storeAt m2 (dst0 + row_byte_stride * (y : Int) + col_byte_stride * (x : Int))
                (tile (y + x * mr))) m) mem)
      | .VecStride _ _ _ =>
          some ((List.range height).foldl (fun m (y : Nat) =>
            storeAt m (dst0 + row_byte_stride * (y : Int)) (tile y)) mem)
      | _ => none

/-- `impl fmt::Display for MatrixStoreSpec`: the string written by
`fmt`. -/
def MatrixStoreSpec.display : MatrixStoreSpec → String
  | .View _ => "ViewAxis"
  | .Packed _ => "Packed"
  | .Strides _ _ => "Strides"
  | .OffsetsAndPtrs _ _ _ => "OffsetsAndPtrs"
  | .VecStride _ _ _ => "VecStrides"

/-- Modelled from the spec: the name of a spec value's variant, as the
spec's sentence "the Display form is exactly the name of its variant"
reads it; used to compare the source's `Display` against that
sentence. -/
def MatrixStoreSpec.variantName : MatrixStoreSpec → String
  | .View _ => "View"
  | .Packed _ => "Packed"
  | .Strides _ _ => "Strides"
  | .OffsetsAndPtrs _ _ _ => "OffsetsAndPtrs"
  | .VecStride _ _ _ => "VecStride"

/-- Variant discriminator for `View`. -/
def MatrixStoreSpec.isView : MatrixStoreSpec → Bool
  | .View _ => true
  | _ => false

/-- Variant discriminator for `Packed`. -/
def MatrixStoreSpec.isPacked : MatrixStoreSpec → Bool
  | .Packed _ => true
  | _ => false

/-- Variant discriminator for `Strides`. -/
def MatrixStoreSpec.isStrides : MatrixStoreSpec → Bool
  | .Strides _ _ => true
  | _ => false

/-- Variant discriminator for `OffsetsAndPtrs`. -/
def MatrixStoreSpec.isOffsetsAndPtrs : MatrixStoreSpec → Bool
  | .OffsetsAndPtrs _ _ _ => true
  | _ => false

/-- Variant discriminator for `VecStride`. -/
def MatrixStoreSpec.isVecStride : MatrixStoreSpec → Bool
  | .VecStride _ _ _ => true
  | _ => false

/-- Descriptor discriminator for `VecStride`. -/
def PanelStore.isVecStride : PanelStore → Bool
  | .VecStride _ _ _ => true
  | _ => false

/-- Descriptor discriminator for `Packed`. -/
def PanelStore.isPacked : PanelStore → Bool
  | .Packed _ => true
  | _ => false

/-- Apply a list of (address, value) stores left to right. -/
def writeList (mem : Int → Int) : List (Int × Int) → (Int → Int)
  | [] => mem
  | p :: rest => writeList (storeAt mem p.1 p.2) rest

theorem foldl_storeAt_eq_writeList {β : Type} (l : List β) (f g : β → Int) (mem : Int → Int) :
    l.foldl (fun m x => storeAt m (f x) (g x)) mem
      = writeList mem (l.map fun x => (f x, g x)) := by
  induction l generalizing mem with
  | nil => rfl
  | cons b rest ih => simp [writeList, ih]

theorem writeList_append (mem : Int → Int) (l₁ l₂ : List (Int × Int)) :
    writeList mem (l₁ ++ l₂) = writeList (writeList mem l₁) l₂ := by
  induction l₁ generalizing mem with
  | nil => rfl
  | cons p rest ih => simp [writeList, ih]

theorem foldl_writeList_flatMap {β : Type} (l : List β) (F : β → List (Int × Int))
    (mem : Int → Int) :
    l.foldl (fun m y => writeList m (F y)) mem = writeList mem (l.flatMap F) := by
  induction l generalizing mem with
  | nil => rfl
  | cons b rest ih => simp [List.flatMap, writeList, ih, writeList_append]

theorem writeList_of_ne (mem : Int → Int) (l : List (Int × Int)) (a : Int)
    (h : ∀ p ∈ l, p.1 ≠ a) : writeList mem l a = mem a := by
  induction l generalizing mem with
  | nil => rfl
  | cons p rest ih =>
      rw [writeList, ih _ fun q hq => h q (List.mem_cons_of_mem _ hq)]
      have : a ≠ p.1 := fun hh => h p (List.mem_cons_self _ _) hh.symm
      simp [storeAt, this]

theorem writeList_lookup (mem : Int → Int) (l : List (Int × Int)) (a v : Int)
    (hmem : (a, v) ∈ l) (huniq : ∀ p ∈ l, p.1 = a → p.2 = v) :
    writeList mem l a = v := by
  induction l generalizing mem with
  | nil => cases hmem
  | cons p rest ih =>
      rw [writeList]
      by_cases hrest : ∃ q ∈ rest, q.1 = a
      · obtain ⟨q, hq, hqa⟩ := hrest
        have hqv : q.2 = v := huniq q (List.mem_cons_of_mem _ hq) hqa
        have : (a, v) ∈ rest := by
          have : q = (a, v) := Prod.ext hqa hqv
          rwa [this] at hq
        exact ih _ this fun r hr => huniq r (List.mem_cons_of_mem _ hr)
      · push_neg at hrest
        have hne : ∀ q ∈ rest, q.1 ≠ a := hrest
        rw [writeList_of_ne _ _ _ hne]
        have hp : p = (a, v) := by
          rcases List.mem_cons.mp hmem with h | h
          · exact h.symm
          · exact absurd rfl (hne _ h)
        simp [hp, storeAt]

/-- Reduction of `set_from_tile` on a linear (`Strides` or `View`)
spec to the nested write loop, with the effective strides given by
`strides`. -/
theorem set_from_tile_linear (sp : MatrixStoreSpec) (t : TensorView) (rbs cbs : Int)
    (down right h w mr nr : Nat) (tile : Nat → Int) (mem : Int → Int)
    (hsp : sp.isStrides = true ∨ sp.isView = true)
    (hst : (MatrixStore.new sp t).strides = some (rbs, cbs)) :
    (MatrixStore.new sp t).set_from_tile down right h w tile mr nr mem
      = some ((List.range h).foldl (fun m (y : Nat) =>
          (List.range w).foldl (fun m2 (x : Nat) =>
            storeAt m2 (t.base + rbs * ((down * mr : Nat) : Int)
                + cbs * ((right * nr : Nat) : Int) + rbs * (y : Int) + cbs * (x : Int))
              (tile (y + x * mr))) m) mem) := by
  cases sp with
  | Strides a b =>
      have hab : a = rbs ∧ b = cbs := by
        simpa [MatrixStore.new, MatrixStore.strides] using hst
      simp [MatrixStore.new, MatrixStore.set_from_tile, MatrixStore.strides,
        hab.1, hab.2]
  | View ax =>
      simp only [MatrixStore.set_from_tile, hst]
      simp [MatrixStore.new]
  | Packed L => simp [MatrixStoreSpec.isStrides, MatrixStoreSpec.isView] at hsp
  | OffsetsAndPtrs ro co snr =>
      simp [MatrixStoreSpec.isStrides, MatrixStoreSpec.isView] at hsp
  | VecStride b m n => simp [MatrixStoreSpec.isStrides, MatrixStoreSpec.isView] at hsp

/-- Reading one cell back from the nested write loop at an
address-injective geometry returns the tile element written there. -/
theorem writeTile_lookup (dst0 rbs cbs : Int) (hgt wid mr : Nat) (tile : Nat → Int)
    (mem : Int → Int)
    (hinj : ∀ y x y' x' : Nat, y < hgt → x < wid → y' < hgt → x' < wid →
      rbs * (y : Int) + cbs * (x : Int) = rbs * (y' : Int) + cbs * (x' : Int) →
      y = y' ∧ x = x')
    (y x : Nat) (hy : y < hgt) (hx : x < wid) :
    ((List.range hgt).foldl (fun m (y : Nat) =>
        (List.range wid).foldl (fun m2 (x : Nat) =>
          storeAt m2 (dst0 + rbs * (y : Int) + cbs * (x : Int)) (tile (y + x * mr))) m) mem)
      (dst0 + rbs * (y : Int) + cbs * (x : Int)) = tile (y + x * mr) := by
  have hfold : (List.range hgt).foldl (fun m (y : Nat) =>
      (List.range wid).foldl (fun m2 (x : Nat) =>
        storeAt m2 (dst0 + rbs * (y : Int) + cbs * (x : Int)) (tile (y + x * mr))) m) mem
      = writeList mem ((List.range hgt).flatMap (fun (y : Nat) =>
          (List.range wid).map (fun (x : Nat) =>
            (dst0 + rbs * (y : Int) + cbs * (x : Int), tile (y + x * mr))))) := by
    rw [← foldl_writeList_flatMap]
    congr 1
    funext m y
    rw [foldl_storeAt_eq_writeList]
  rw [hfold]
  apply writeList_lookup
  · exact List.mem_flatMap.mpr ⟨y, List.mem_range.mpr hy,
      List.mem_map.mpr ⟨x, List.mem_range.mpr hx, rfl⟩⟩
  · rintro p hp hpa
    obtain ⟨y', hy', hp2⟩ := List.mem_flatMap.mp hp
    obtain ⟨x', hx', rfl⟩ := List.mem_map.mp hp2
    have heq : rbs * (y' : Int) + cbs * (x' : Int) = rbs * (y : Int) + cbs * (x : Int) := by
      have := hpa
      simp only at this
      linarith
    obtain ⟨hyy, hxx⟩ := hinj y' x' y x (List.mem_range.mp hy') (List.mem_range.mp hx')
      hy hx heq
    subst hyy
    subst hxx
    rfl

/-- Reduction of `set_from_tile` on a `VecStride` spec to the single
write loop: the effective column stride is 0, so the destination start
is base + byte_stride·down·mr and the `width` argument is never
consulted. -/
theorem set_from_tile_vecstride (t : TensorView) (bs : Int)
    (smr snr down right h w mr nr : Nat) (tile : Nat → Int) (mem : Int → Int) :
    (MatrixStore.new (.VecStride bs smr snr) t).set_from_tile down right h w tile mr nr mem
      = some ((List.range h).foldl (fun m (y : Nat) =>
          storeAt m (t.base + bs * ((down * mr : Nat) : Int) + bs * (y : Int))
            (tile y)) mem) := by
  simp [MatrixStore.new, MatrixStore.set_from_tile, MatrixStore.strides]

/-- C1: for a `Packed` operand-B spec with micro-tile width `nr` and
total column-panel count `n`, `panel_b nr i n` returns a `VecStride`
descriptor iff `nr * i + 1 = n`, and a `Packed` descriptor for every
other `i`. -/
theorem C1_panel_b_packed_vecstride_iff (t : TensorView) (L nr i n : Nat) :
    ((MatrixStore.new (.Packed L) t).panel_b nr i n).map PanelStore.isVecStride
        = some (decide (nr * i + 1 = n)) ∧
    ((MatrixStore.new (.Packed L) t).panel_b nr i n).map PanelStore.isPacked
        = some (decide (nr * i + 1 ≠ n)) := by
  by_cases hc : nr * i + 1 = n <;>
    simp [MatrixStore.new, MatrixStore.panel_b, hc, PanelStore.isVecStride,
      PanelStore.isPacked]

/-- C3: for a `Strides` or `View` spec, `tile_c down right mr nr` is a
`Strides` descriptor at address base + row_stride·down·mr +
col_stride·right·nr, carrying both byte strides and the element size;
with strides (16, 4), `mr = nr = 4`, `down = 1`, `right = 2`, the
offset from base is 96 bytes. -/
theorem C3_tile_c_address (t : TensorView) (rbs cbs vrbs vcbs : Int)
    (ax : Option (Nat × Nat)) (down right mr nr : Nat)
    (hview : (MatrixStore.new (.View ax) t).strides = some (vrbs, vcbs)) :
    (MatrixStore.new (.Strides rbs cbs) t).tile_c down right mr nr
        = some (.Strides (t.base + rbs * down * mr + cbs * right * nr)
            rbs cbs t.item_size) ∧
    (MatrixStore.new (.View ax) t).tile_c down right mr nr
        = some (.Strides (t.base + vrbs * down * mr + vcbs * right * nr)
            vrbs vcbs t.item_size) ∧
    (MatrixStore.new (.Strides 16 4) t).tile_c 1 2 4 4
        = some (.Strides (t.base + 96) 16 4 t.item_size) := by
  refine ⟨?_, ?_, ?_⟩
  · simp [MatrixStore.new, MatrixStore.tile_c, MatrixStore.strides]
  · simp [MatrixStore.new, MatrixStore.tile_c] at hview ⊢
    simp [hview]
  · simp [MatrixStore.new, MatrixStore.tile_c, MatrixStore.strides]
    omega

/-- C3 witness: a rank-2 tensor with element strides (4, 1) and 4-byte
elements gives View strides (16, 4), and `tile_c` at the claimed
addresses. -/
theorem C3_tile_c_address_witness :
    (MatrixStore.new (.View none) ⟨0, 4, [4, 1]⟩).strides = some (16, 4) ∧
    ((MatrixStore.new (.Strides 16 4) (⟨0, 4, [4, 1]⟩ : TensorView)).tile_c 1 2 4 4
        = some (.Strides ((0 : Int) + 16 * 1 * 4 + 4 * 2 * 4) 16 4 4) ∧
      (MatrixStore.new (.View none) (⟨0, 4, [4, 1]⟩ : TensorView)).tile_c 1 2 4 4
        = some (.Strides ((0 : Int) + 16 * 1 * 4 + 4 * 2 * 4) 16 4 4) ∧
      (MatrixStore.new (.Strides 16 4) (⟨0, 4, [4, 1]⟩ : TensorView)).tile_c 1 2 4 4
        = some (.Strides ((0 : Int) + 96) 16 4 4)) :=
  ⟨by decide, by
    have h := C3_tile_c_address ⟨0, 4, [4, 1]⟩ 16 4 16 4 none 1 2 4 4 (by decide)
    simpa using h⟩

/-- C4: for a `Packed` spec with panel length `L` over a tensor with
element size `S`, `panel_a i` is a `Packed` descriptor at address
base + L·i·S for every `i`; with `L = 8`, `S = 4`, `panel_a 3` is 96
bytes past base. -/
theorem C4_panel_a_packed_offset (t : TensorView) (L i : Nat) :
    (MatrixStore.new (.Packed L) t).panel_a i
        = some (.Packed (t.base + ((L * i * t.item_size : Nat) : Int))) ∧
    (MatrixStore.new (.Packed 8)
        { base := t.base, item_size := 4, strides := t.strides }).panel_a 3
        = some (.Packed (t.base + 96)) := by
  constructor <;> simp [MatrixStore.new, MatrixStore.panel_a]

/-- C5: `panel_a` on any non-`Packed` spec aborts with no descriptor,
and `strides` (hence `tile_c` and `set_from_tile`) on a `Packed` or
`OffsetsAndPtrs` spec aborts with no descriptor — never a fallback
layout. -/
theorem C5_contract_violation_aborts (t : TensorView) (sp : MatrixStoreSpec)
    (i down right mr nr h w : Nat) (tile : Nat → Int) (mem : Int → Int) :
    (sp.isPacked = false → (MatrixStore.new sp t).panel_a i = none) ∧
    (sp.isPacked = true ∨ sp.isOffsetsAndPtrs = true →
      (MatrixStore.new sp t).strides = none ∧
      (MatrixStore.new sp t).tile_c down right mr nr = none ∧
      (MatrixStore.new sp t).set_from_tile down right h w tile mr nr mem = none) := by
  cases sp <;>
    simp [MatrixStore.new, MatrixStore.panel_a, MatrixStore.strides, MatrixStore.tile_c,
      MatrixStore.set_from_tile, MatrixStoreSpec.isPacked, MatrixStoreSpec.isOffsetsAndPtrs]

/-- C5 witness: concrete contract violations abort: `panel_a` on an
`OffsetsAndPtrs` spec, and the linear accessors on that same spec. -/
theorem C5_contract_violation_aborts_witness :
    ((MatrixStoreSpec.OffsetsAndPtrs [1] [2] 1).isPacked = false →
      (MatrixStore.new (.OffsetsAndPtrs [1] [2] 1) ⟨0, 4, []⟩).panel_a 0 = none) ∧
    ((MatrixStoreSpec.OffsetsAndPtrs [1] [2] 1).isPacked = true ∨
        (MatrixStoreSpec.OffsetsAndPtrs [1] [2] 1).isOffsetsAndPtrs = true →
      (MatrixStore.new (.OffsetsAndPtrs [1] [2] 1) ⟨0, 4, []⟩).strides = none ∧
      (MatrixStore.new (.OffsetsAndPtrs [1] [2] 1) ⟨0, 4, []⟩).tile_c 0 0 1 1 = none ∧
      (MatrixStore.new (.OffsetsAndPtrs [1] [2] 1) ⟨0, 4, []⟩).set_from_tile 0 0 1 1
        (fun _ => 0) 1 1 (fun _ => 0) = none) :=
  C5_contract_violation_aborts ⟨0, 4, []⟩ (.OffsetsAndPtrs [1] [2] 1) 0 0 0 1 1 1 1
    (fun _ => 0) (fun _ => 0)

/-- C6: for a `View` spec with unspecified axes over a rank-`r` tensor,
`strides` is the tensor's element strides at axes (r-2, r-1) scaled to
bytes by the element size; a given axis pair is used instead of the
default. -/
theorem C6_view_strides (t : TensorView) (r m n : Nat) (a b sa sb : Int)
    (hr : t.rank = r) (_h2 : 2 ≤ r)
    (ha : t.strides[r - 2]? = some a) (hb : t.strides[r - 1]? = some b)
    (hm : t.strides[m]? = some sa) (hn : t.strides[n]? = some sb) :
    (MatrixStore.new (.View none) t).strides
        = some (a * t.item_size, b * t.item_size) ∧
    (MatrixStore.new (.View (some (m, n))) t).strides
        = some (sa * t.item_size, sb * t.item_size) := by
  constructor <;>
    simp [MatrixStore.new, MatrixStore.strides, hr, List.getD_eq_getElem?_getD,
      ha, hb, hm, hn]

/-- C6 witness: rank-2 tensor with strides [4, 1] and 4-byte elements:
default axes give (16, 4); the explicit reversed axis pair gives
(4, 16). -/
theorem C6_view_strides_witness :
    ((⟨0, 4, [4, 1]⟩ : TensorView).rank = 2 ∧ 2 ≤ 2 ∧
      ([4, 1] : List Int)[0]? = some 4 ∧ ([4, 1] : List Int)[1]? = some 1) ∧
    (MatrixStore.new (.View none) ⟨0, 4, [4, 1]⟩).strides = some (4 * 4, 1 * 4) ∧
    (MatrixStore.new (.View (some (1, 0))) ⟨0, 4, [4, 1]⟩).strides
        = some (1 * 4, 4 * 4) :=
  ⟨⟨by decide, by decide, by decide, by decide⟩,
    C6_view_strides ⟨0, 4, [4, 1]⟩ 2 1 0 4 1 1 4 (by decide) (by decide)
      (by decide) (by decide) (by decide) (by decide)⟩

/-- C8: binding an `OffsetsAndPtrs` spec precomputes, at bind time, one
column pointer per declared column byte offset, entry `j` being
base + col_byte_offsets[j]; every other variant binds with no pointer
table; binding always succeeds and records exactly the given spec and
tensor. -/
theorem C8_bind_col_ptrs (t : TensorView) (ro co : List Int) (snr : Nat)
    (sp : MatrixStoreSpec) (j : Nat) (hsp : sp.isOffsetsAndPtrs = false) :
    (MatrixStore.new sp t).spec = sp ∧ (MatrixStore.new sp t).tensor = t ∧
    (MatrixStore.new sp t).col_ptrs = none ∧
    ∃ l, (MatrixStore.new (.OffsetsAndPtrs ro co snr) t).col_ptrs = some l ∧
      l.length = co.length ∧ l[j]? = (co[j]?).map (fun off => t.base + off) := by
  refine ⟨?_, ?_, ?_, co.map (fun off => t.base + off), ?_, ?_, ?_⟩
  · cases sp <;> rfl
  · cases sp <;> rfl
  · cases sp <;> simp_all [MatrixStore.new, MatrixStoreSpec.isOffsetsAndPtrs]
  · rfl
  · simp
  · simp

/-- C8 witness: binding a `View` spec yields no pointer table, and an
`OffsetsAndPtrs` spec with offsets [10, 20] over base 100 resolves to
[110, 120]. -/
theorem C8_bind_col_ptrs_witness :
    ((MatrixStoreSpec.View none).isOffsetsAndPtrs = false) ∧
    ((MatrixStore.new (.View none) ⟨100, 4, []⟩).spec = .View none ∧
      (MatrixStore.new (.View none) ⟨100, 4, []⟩).tensor = ⟨100, 4, []⟩ ∧
      (MatrixStore.new (.View none) ⟨100, 4, []⟩).col_ptrs = none ∧
      ∃ l, (MatrixStore.new (.OffsetsAndPtrs [5] [10, 20] 1) ⟨100, 4, []⟩).col_ptrs
            = some l ∧
        l.length = ([10, 20] : List Int).length ∧
        l[1]? = (([10, 20] : List Int)[1]?).map (fun off => (100 : Int) + off)) :=
  ⟨by decide, C8_bind_col_ptrs ⟨100, 4, []⟩ [5] [10, 20] 1 (.View none) 1 (by decide)⟩

/-- C10: for an `OffsetsAndPtrs` spec, `panel_b` ignores its `nr` and
`n` arguments and returns an `OffsetsAndPtrs` descriptor holding the
spec's row-offset table and the precomputed column-pointer table
advanced by spec_nr · i entries. -/
theorem C10_panel_b_offsets_and_ptrs (t : TensorView) (ro co : List Int)
    (snr nr nr' i n n' : Nat) :
    (MatrixStore.new (.OffsetsAndPtrs ro co snr) t).panel_b nr i n
        = some (.OffsetsAndPtrs ro
            ((co.map (fun off => t.base + off)).drop (snr * i))) ∧
    (MatrixStore.new (.OffsetsAndPtrs ro co snr) t).panel_b nr i n
        = (MatrixStore.new (.OffsetsAndPtrs ro co snr) t).panel_b nr' i n' := by
  constructor <;> simp [MatrixStore.new, MatrixStore.panel_b]

/-- C2 counterexample: with row byte stride 0 (a legal stride pair
under the claim's "every stride pair"), the writes for rows 0 and 1
land on the same address, so reading cell (0, 0) back through the same
geometry returns the value of tile element 1, not tile element
0 + 0·mr = 0. -/
theorem C2_roundtrip_counterexample :
    ((MatrixStore.new (.Strides 0 4) ⟨0, 4, []⟩).set_from_tile 0 0 2 1
        (fun k => (k : Int)) 2 1 (fun _ => 0)).map (fun m => m ((0 : Int) + 0 * 0 + 4 * 0))
      ≠ some ((fun k : Nat => (k : Int)) (0 + 0 * 2)) := by
  decide

/-- C2 (amended): for a `Strides` or `View` spec whose effective byte
strides make the map (y, x) ↦ rbs·y + cbs·x injective on the h × w
tile (which holds in particular for the non-degenerate negative and
non-unit stride pairs a real destination uses, but not for every
pair), writing via `set_from_tile down right h w tile mr nr` and
reading every cell back through the same geometry returns exactly the
tile's values, cell (y, x) holding tile element y + x·mr. -/
theorem C2_set_from_tile_roundtrip (sp : MatrixStoreSpec) (t : TensorView)
    (rbs cbs : Int) (down right h w mr nr : Nat) (tile : Nat → Int) (mem : Int → Int)
    (hsp : sp.isStrides = true ∨ sp.isView = true)
    (hst : (MatrixStore.new sp t).strides = some (rbs, cbs))
    (hinj : ∀ y x y' x' : Nat, y < h → x < w → y' < h → x' < w →
      rbs * (y : Int) + cbs * (x : Int) = rbs * (y' : Int) + cbs * (x' : Int) →
      y = y' ∧ x = x') :
    ∃ m', (MatrixStore.new sp t).set_from_tile down right h w tile mr nr mem = some m' ∧
      ∀ y x : Nat, y < h → x < w →
        m' (t.base + rbs * ((down * mr : Nat) : Int) + cbs * ((right * nr : Nat) : Int)
            + rbs * (y : Int) + cbs * (x : Int)) = tile (y + x * mr) := by
  refine ⟨_, set_from_tile_linear sp t rbs cbs down right h w mr nr tile mem hsp hst, ?_⟩
  intro y x hy hx
  exact writeTile_lookup
    (t.base + rbs * ((down * mr : Nat) : Int) + cbs * ((right * nr : Nat) : Int))
    rbs cbs h w mr tile mem hinj y x hy hx

/-- C2 witness: a `Strides` spec with negative row stride -16 and
column stride 4, a 2 × 3 tile at macro-position (1, 2) with mr = 2,
nr = 3: the strides are injective on the tile and every cell reads
back its tile element. -/
theorem C2_set_from_tile_roundtrip_witness :
    ((MatrixStoreSpec.Strides (-16) 4).isStrides = true ∨
        (MatrixStoreSpec.Strides (-16) 4).isView = true) ∧
    (MatrixStore.new (.Strides (-16) 4) ⟨1000, 4, []⟩).strides = some (-16, 4) ∧
    (∀ y x y' x' : Nat, y < 2 → x < 3 → y' < 2 → x' < 3 →
      (-16 : Int) * (y : Int) + 4 * (x : Int) = -16 * (y' : Int) + 4 * (x' : Int) →
      y = y' ∧ x = x') ∧
    ∃ m', (MatrixStore.new (.Strides (-16) 4) ⟨1000, 4, []⟩).set_from_tile 1 2 2 3
        (fun k => (k : Int) + 100) 2 3 (fun _ => 0) = some m' ∧
      ∀ y x : Nat, y < 2 → x < 3 →
        m' ((1000 : Int) + (-16) * ((1 * 2 : Nat) : Int) + 4 * ((2 * 3 : Nat) : Int)
            + (-16) * (y : Int) + 4 * (x : Int)) = (fun k => (k : Int) + 100) (y + x * 2) :=
  ⟨Or.inl (by decide), by decide,
    fun y x y' x' hy hx hy' hx' hline => by omega,
    C2_set_from_tile_roundtrip (.Strides (-16) 4) ⟨1000, 4, []⟩ (-16) 4 1 2 2 3 2 3
      (fun k => (k : Int) + 100) (fun _ => 0) (Or.inl (by decide)) (by decide)
      (fun y x y' x' hy hx hy' hx' hline => by omega)⟩

/-- C7: for a `VecStride` spec the effective stride pair has column
component 0, `tile_c` returns a single-stride `VecStride` descriptor
at base + byte_stride·down·mr, and `set_from_tile` writes only the
`height` addresses base + byte_stride·(down·mr + y) for y < height —
independent of the requested `width` and touching no other destination
memory; when the stride is nonzero each such address holds its tile
element. -/
theorem C7_vecstride_write_footprint (t : TensorView) (bs : Int)
    (smr snr down right mr nr h w w' : Nat) (tile : Nat → Int) (mem : Int → Int) :
    (MatrixStore.new (.VecStride bs smr snr) t).strides = some (bs, 0) ∧
    (MatrixStore.new (.VecStride bs smr snr) t).tile_c down right mr nr
        = some (.VecStride (t.base + bs * down * mr) bs t.item_size) ∧
    (MatrixStore.new (.VecStride bs smr snr) t).set_from_tile down right h w tile mr nr mem
        = (MatrixStore.new (.VecStride bs smr snr) t).set_from_tile down right h w' tile
            mr nr mem ∧
    ∃ m', (MatrixStore.new (.VecStride bs smr snr) t).set_from_tile down right h w tile
            mr nr mem = some m' ∧
      (∀ a : Int, (∀ y : Nat, y < h →
          a ≠ t.base + bs * ((down * mr : Nat) : Int) + bs * (y : Int)) → m' a = mem a) ∧
      (bs ≠ 0 → ∀ y : Nat, y < h →
        m' (t.base + bs * ((down * mr : Nat) : Int) + bs * (y : Int)) = tile y) := by
  refine ⟨rfl, ?_, ?_, ?_⟩
  · simp [MatrixStore.new, MatrixStore.tile_c, MatrixStore.strides]
  · rw [set_from_tile_vecstride, set_from_tile_vecstride]
  · refine ⟨_, set_from_tile_vecstride t bs smr snr down right h w mr nr tile mem, ?_, ?_⟩
    · intro a ha
      rw [foldl_storeAt_eq_writeList]
      apply writeList_of_ne
      intro p hp
      obtain ⟨y', hy', rfl⟩ := List.mem_map.mp hp
      exact fun hcontra => ha y' (List.mem_range.mp hy') hcontra.symm
    · intro hbs y hy
      rw [foldl_storeAt_eq_writeList]
      apply writeList_lookup
      · exact List.mem_map.mpr ⟨y, List.mem_range.mpr hy, rfl⟩
      · rintro p hp hpa
        obtain ⟨y', hy', rfl⟩ := List.mem_map.mp hp
        simp only at hpa
        have hyy : (y' : Int) = y := by
          have h1 : bs * (y' : Int) = bs * (y : Int) := by linarith
          exact mul_left_cancel₀ hbs h1
        have hyy2 : y' = y := Nat.cast_injective hyy
        subst hyy2
        rfl

/-- C7 witness: stride 8 over a 4-byte-element tensor at macro-row 1
with mr = 4: three writes land at 32, 40 and 48 only, for any
requested width, and hold the tile's first three elements. -/
theorem C7_vecstride_write_footprint_witness :
    (MatrixStore.new (.VecStride 8 4 4) ⟨0, 4, [3, 1]⟩).strides = some (8, 0) ∧
    (MatrixStore.new (.VecStride 8 4 4) ⟨0, 4, [3, 1]⟩).tile_c 1 0 4 4
        = some (.VecStride ((0 : Int) + 8 * 1 * 4) 8 4) ∧
    (MatrixStore.new (.VecStride 8 4 4) ⟨0, 4, [3, 1]⟩).set_from_tile 1 0 3 7
        (fun k => (k : Int) + 100) 4 4 (fun _ => -1)
        = (MatrixStore.new (.VecStride 8 4 4) ⟨0, 4, [3, 1]⟩).set_from_tile 1 0 3 2
            (fun k => (k : Int) + 100) 4 4 (fun _ => -1) ∧
    ∃ m', (MatrixStore.new (.VecStride 8 4 4) ⟨0, 4, [3, 1]⟩).set_from_tile 1 0 3 7
            (fun k => (k : Int) + 100) 4 4 (fun _ => -1) = some m' ∧
      (∀ a : Int, (∀ y : Nat, y < 3 →
          a ≠ (0 : Int) + 8 * ((1 * 4 : Nat) : Int) + 8 * (y : Int)) →
        m' a = (fun _ => (-1 : Int)) a) ∧
      ((8 : Int) ≠ 0 → ∀ y : Nat, y < 3 →
        m' ((0 : Int) + 8 * ((1 * 4 : Nat) : Int) + 8 * (y : Int))
          = (fun k => (k : Int) + 100) y) :=
  C7_vecstride_write_footprint ⟨0, 4, [3, 1]⟩ 8 4 4 1 0 4 4 3 7 2
    (fun k => (k : Int) + 100) (fun _ => -1)

/-- C9 counterexample: the `View` spec does not display as its variant
name: its Display form is "ViewAxis", not "View" (likewise `VecStride`
displays as "VecStrides"). -/
theorem C9_display_counterexample :
    (MatrixStoreSpec.View none).display ≠ (MatrixStoreSpec.View none).variantName ∧
    (MatrixStoreSpec.VecStride 1 2 3).display
        ≠ (MatrixStoreSpec.VecStride 1 2 3).variantName := by
  constructor <;> decide

/-- C9 (amended): the Display form depends only on the variant, never
on payload fields; for `Packed`, `Strides` and `OffsetsAndPtrs` it is
exactly the variant name, while `View` displays "ViewAxis" and
`VecStride` displays "VecStrides". -/
theorem C9_display_variant_only (a b : MatrixStoreSpec)
    (hab : a.variantName = b.variantName) :
    a.display = b.display ∧
    (a.isPacked = true ∨ a.isStrides = true ∨ a.isOffsetsAndPtrs = true →
      a.display = a.variantName) ∧
    (a.isView = true → a.display = "ViewAxis") ∧
    (a.isVecStride = true → a.display = "VecStrides") := by
  cases a <;> cases b <;>
    simp_all [MatrixStoreSpec.display, MatrixStoreSpec.variantName,
      MatrixStoreSpec.isPacked, MatrixStoreSpec.isStrides,
      MatrixStoreSpec.isOffsetsAndPtrs, MatrixStoreSpec.isView,
      MatrixStoreSpec.isVecStride]

/-- C9 witness: two `Strides` specs with different payloads have equal
variant names, display identically, and display the variant name. -/
theorem C9_display_variant_only_witness :
    (MatrixStoreSpec.Strides 1 2).variantName = (MatrixStoreSpec.Strides 3 4).variantName ∧
    ((MatrixStoreSpec.Strides 1 2).display = (MatrixStoreSpec.Strides 3 4).display ∧
      ((MatrixStoreSpec.Strides 1 2).isPacked = true ∨
          (MatrixStoreSpec.Strides 1 2).isStrides = true ∨
          (MatrixStoreSpec.Strides 1 2).isOffsetsAndPtrs = true →
        (MatrixStoreSpec.Strides 1 2).display = (MatrixStoreSpec.Strides 1 2).variantName) ∧
      ((MatrixStoreSpec.Strides 1 2).isView = true →
        (MatrixStoreSpec.Strides 1 2).display = "ViewAxis") ∧
      ((MatrixStoreSpec.Strides 1 2).isVecStride = true →
        (MatrixStoreSpec.Strides 1 2).display = "VecStrides")) :=
  ⟨by decide, C9_display_variant_only (.Strides 1 2) (.Strides 3 4) (by decide)⟩

end Tract
